import Mathlib

/-!
Shallow embedding of the sigma-test rule test runner (sigma-test.go) and
proofs about its test-case resolution and verdict pipeline.
-/

namespace SigmaTest

/-- An event is a mapping from field names to scalar values (opaque to this core). -/
abbrev EventMap := List (String × String)

/-- A log-source identity triple, as in sigma-go's Logsource. -/
structure Logsource where
  product : String
  category : String
  service : String
deriving DecidableEq, Repr

/-- One log-source definition of a Config: a logsource selector and its rewrite target. -/
structure LogsourceMapping where
  logsource : Logsource
  rewrite : Logsource
deriving DecidableEq, Repr

/-- A configuration: backend identifiers plus log-source definitions. -/
structure Config where
  backends : List String
  logsources : List LogsourceMapping
deriving DecidableEq, Repr

/-- A rule, reduced to the fields this core inspects: its log-source identity. -/
structure Rule where
  logsource : Logsource
deriving DecidableEq, Repr

/-- Modelled from the spec: the TestCase record type (its Go struct definition is not
under src/; sigma-test.go references fields Match and Event). Match is an optional
boolean expectation, Event an optional field mapping (none models a nil Go map). -/
structure TestCase where
  Match : Option Bool
  Event : Option EventMap
deriving DecidableEq, Repr

/-- The per-mapping relevance condition of sigma-test.go line 155. -/
def mappingMatches (r : Rule) (v : LogsourceMapping) : Bool :=
  (v.logsource.product == r.logsource.product || v.rewrite.product == r.logsource.product)
    && (v.logsource.category == r.logsource.category || v.rewrite.category == r.logsource.category)

/-- The relevant-configuration filter of sigma-test.go lines 152-159: a nested loop
appending the config once for each of its matching log-source definitions. -/
def relevantConfigs (r : Rule) (configs : List Config) : List Config :=
  configs.foldl
    (fun acc c =>
      c.logsources.foldl (fun acc2 v => if mappingMatches r v then acc2 ++ [c] else acc2) acc)
    []

theorem inner_foldl_eq (r : Rule) (c : Config) (vs : List LogsourceMapping) (acc : List Config) :
    vs.foldl (fun acc2 v => if mappingMatches r v then acc2 ++ [c] else acc2) acc
      = acc ++ (vs.filter (mappingMatches r)).map (fun _ => c) := by
  induction vs generalizing acc with
  | nil => simp
  | cons v vs ih =>
    by_cases h : mappingMatches r v
    · simp [List.foldl_cons, h, ih, List.filter_cons]
    · simp [List.foldl_cons, h, ih, List.filter_cons]

theorem relevantConfigs_eq_flatMap (r : Rule) (configs : List Config) :
    relevantConfigs r configs
      = configs.flatMap (fun c => (c.logsources.filter (mappingMatches r)).map (fun _ => c)) := by
  suffices h : ∀ acc, configs.foldl
      (fun acc c =>
        c.logsources.foldl (fun acc2 v => if mappingMatches r v then acc2 ++ [c] else acc2) acc)
      acc
      = acc ++ configs.flatMap (fun c => (c.logsources.filter (mappingMatches r)).map (fun _ => c)) by
    simpa [relevantConfigs] using h []
  intro acc
  induction configs generalizing acc with
  | nil => simp
  | cons c cs ih =>
    rw [List.foldl_cons, inner_foldl_eq, ih, List.flatMap_cons, List.append_assoc]

/-- Outcome of opening and stream-decoding a companion test file. missing models
fs.ErrNotExist from os.Open; openError any other open failure; decoded carries the
records the YAML decoder produced before its loop-terminating error, with decodeErr
none when that error was io.EOF and some message otherwise. -/
inductive FileOutcome where
  | missing
  | openError (msg : String)
  | decoded (records : List TestCase) (decodeErr : Option String)
deriving DecidableEq, Repr

/-- Result of getTestCases: the test cases, an error, or a runtime panic. -/
inductive TestCasesResult where
  | ok (testCases : List TestCase)
  | err (msg : String)
  | panicked
deriving DecidableEq, Repr

/-- getTestCases (sigma-test.go lines 193-222): a missing file yields an empty list
without error; a non-EOF decode error is surfaced; otherwise the final decoded record
is dropped when its Event is unset. Indexing testCases[len(testCases)-1] on an empty
slice is a Go runtime panic, modelled as the panicked outcome. -/
def getTestCases (file : FileOutcome) : TestCasesResult :=
  match file with
  | .missing => .ok []
  | .openError m => .err m
  | .decoded records decodeErr =>
    match decodeErr with
    | some m => .err ("error parsing test cases: " ++ m)
    | none =>
      match records.getLast? with
      | none => .panicked
      | some last => if last.Event == none then .ok records.dropLast else .ok records

/-- Length of the extension (final dot included) at the end of a reversed character
list, none when a path separator or the start of the string comes first. This mirrors
Go's filepath.Ext scanning backwards from the end of the path. -/
def extLen : List Char → Option Nat
  | [] => none
  | c :: rest =>
    if c = '/' then none
    else if c = '.' then some 1
    else (extLen rest).map (· + 1)

/-- filepath.Ext: the suffix of path beginning at the final dot of its last element,
empty when there is none. -/
def goExt (path : String) : String :=
  match extLen path.toList.reverse with
  | none => ""
  | some n => ⟨path.toList.drop (path.toList.length - n)⟩

/-- The companion test-file name of sigma-test.go lines 140-141:
strings.TrimSuffix(path, ext) + "_test" + ext. Since goExt returns an actual suffix
of the path, trimming it is dropping its length from the end. -/
def testFilename (path : String) : String :=
  let ext := goExt path
  (⟨path.toList.take (path.toList.length - ext.toList.length)⟩ : String) ++ "_test" ++ ext

/-- The per-file verdict, including the non-verdict outcomes testFile can produce:
a surfaced test-file error and a runtime panic. -/
inductive Verdict where
  | pass
  | skip
  | errNoLogSources
  | fail (failures : List String)
  | fileError (msg : String)
  | panicked
deriving DecidableEq, Repr

/-- One iteration of the test-case loop of sigma-test.go lines 172-186. matchFn models
rule.Matches: none is an evaluation error, in which case Go receives the zero Result
whose Match field is false. reprFn models fmt.Sprintf of the event. -/
def testCaseStep (matchFn : Option EventMap → Option Bool) (reprFn : Option EventMap → String)
    (acc : Bool × List String) (tc : TestCase) : Bool × List String :=
  let shouldMatch := tc.Match.getD true
  let result := (matchFn tc.Event).getD false
  if shouldMatch && !result then (false, acc.2 ++ [reprFn tc.Event ++ " should have matched"])
  else if !shouldMatch && result then
    (false, acc.2 ++ [reprFn tc.Event ++ " shouldn't have matched"])
  else acc

/-- The whole test-case loop: pass flag starts true, failures start empty. -/
def runTestCases (matchFn : Option EventMap → Option Bool) (reprFn : Option EventMap → String)
    (testCases : List TestCase) : Bool × List String :=
  testCases.foldl (testCaseStep matchFn reprFn) (true, [])

/-- The verdict part of testFile (sigma-test.go lines 143-191) applied to the result
of getTestCases: skip on zero test cases, the no-relevant-logsources error when the
relevant-configuration filter returns nothing, otherwise pass or fail from the loop. -/
def testFileVerdict (matchFn : Option EventMap → Option Bool)
    (reprFn : Option EventMap → String) (configs : List Config) (r : Rule)
    (testCasesResult : TestCasesResult) : Verdict :=
  match testCasesResult with
  | .err m => .fileError m
  | .panicked => .panicked
  | .ok testCases =>
    if testCases.length == 0 then .skip
    else
      let rcs := relevantConfigs r configs
      if rcs.length == 0 then .errNoLogSources
      else
        let res := runTestCases matchFn reprFn testCases
        if res.1 then .pass else .fail res.2

/-- testFile (sigma-test.go lines 139-191): derive the companion test-file name, load
its test cases through the file system fs, and classify. -/
def testFile (matchFn : Option EventMap → Option Bool) (reprFn : Option EventMap → String)
    (fs : String → FileOutcome) (configs : List Config) (r : Rule) (path : String) : Verdict :=
  testFileVerdict matchFn reprFn configs r (getTestCases (fs (testFilename path)))

/-- Outcome of reading and parsing one matched configuration file. -/
inductive ConfigFileOutcome where
  | readError (msg : String)
  | parseError (msg : String)
  | parsed (c : Config)
deriving Repr

/-- The loop of loadConfigs over the glob matches (sigma-test.go lines 111-128):
read and parse each file, abort on the first failure, and keep a parsed config only
when its backends contain this tool's identifier. -/
def loadConfigsLoop (readParse : String → ConfigFileOutcome) :
    List String → Except String (List Config)
  | [] => .ok []
  | f :: fs =>
    match readParse f with
    | .readError m => .error ("failed to read config file " ++ f ++ ": " ++ m)
    | .parseError m => .error ("failed to parse config file " ++ f ++ ": " ++ m)
    | .parsed c =>
      match loadConfigsLoop readParse fs with
      | .error e => .error e
      | .ok rest =>
        .ok ((if c.backends.contains "github.com/bradleyjkemp/sigma-go" then [c] else []) ++ rest)

/-- loadConfigs (sigma-test.go lines 101-131): an empty pattern short-circuits to an
empty configuration list; otherwise the glob matches are loaded in order. -/
def loadConfigs (pattern : String) (globFiles : List String)
    (readParse : String → ConfigFileOutcome) : Except String (List Config) :=
  if pattern = "" then .ok [] else loadConfigsLoop readParse globFiles

/-- A file-system tree node: a plain file or a directory with ordered children. -/
inductive FsEntry where
  | file (name : String)
  | dir (name : String) (children : List FsEntry)

mutual

/-- The walk of run (sigma-test.go lines 57-63) through filepath.Walk: paths are
segment lists; the root directory is always entered, a deeper directory only when the
recursive flag is set (otherwise the callback returns filepath.SkipDir); files are
yielded. walkEntry visits one entry, walkList its children in order. -/
def walkEntry (recursive : Bool) (isRoot : Bool) (pfx : List String) :
    FsEntry → List (List String)
  | .file n => [pfx ++ [n]]
  | .dir n children =>
    if isRoot || recursive then walkList recursive (pfx ++ [n]) children else []

/-- Companion of walkEntry: visit a directory's children left to right. -/
def walkList (recursive : Bool) (pfx : List String) : List FsEntry → List (List String)
  | [] => []
  | e :: es => walkEntry recursive false pfx e ++ walkList recursive pfx es

end

/-- Classification of a walked file's contents by the external readers: unreadable,
not inferred to be a rule file, unparsable as a rule, or a parsed rule. -/
inductive RuleFileContent where
  | readError (msg : String)
  | notRuleFile
  | parseError (msg : String)
  | rule (r : Rule)

/-- The effect of the walk callback (sigma-test.go lines 65-94) on one file: silently
skipped, reported with output lines and whether it counts against the passed flag,
a fatal error aborting the walk, or a runtime panic. -/
inductive FileEffect where
  | skipped
  | reported (lines : List String) (failed : Bool)
  | fatal (msg : String)
  | panicked
deriving DecidableEq, Repr

/-- Whether a verdict flips the passed flag: exactly the errFailedTests and
errNoLogSources sentinels of sigma-test.go line 84. -/
def verdictFailed : Verdict → Bool
  | .fail _ => true
  | .errNoLogSources => true
  | _ => false

/-- The report lines of sigma-test.go lines 87-92 for one verdict, paired with the
passed-flag update of line 84-86. -/
def verdictEffect (path : String) : Verdict → FileEffect
  | .pass => .reported [path ++ "\tPASS\t"] false
  | .skip => .reported [path ++ "\tSKIP\t"] false
  | .errNoLogSources =>
    .reported [path ++ "\tERROR: No relevant logsource configurations\t"] true
  | .fail failures =>
    .reported ((path ++ "\tFAIL\t") :: failures.map (fun f => "\t" ++ f)) true
  | .fileError m => .reported [path ++ "\t" ++ m ++ "\t"] false
  | .panicked => .panicked

/-- The walk callback of run for one non-directory path (sigma-test.go lines 65-94):
skip non-yaml extensions, read the file (fatal on failure), skip files not inferred
to be rule files, parse the rule (fatal on failure), then test and report. -/
def processFile (matchFn : Option EventMap → Option Bool) (reprFn : Option EventMap → String)
    (fs : String → FileOutcome) (contentOf : String → RuleFileContent)
    (configs : List Config) (path : String) : FileEffect :=
  if goExt path != ".yaml" && goExt path != ".yml" then .skipped
  else
    match contentOf path with
    | .readError m => .fatal ("error reading " ++ path ++ ": " ++ m)
    | .notRuleFile => .skipped
    | .parseError m => .fatal ("error parsing " ++ path ++ ": " ++ m)
    | .rule r => verdictEffect path (testFile matchFn reprFn fs configs r path)

/-- Final state of one run: the passed flag, the report lines in visitation order,
and the walk error if one aborted it; crashed models a propagated panic. -/
inductive RunOutcome where
  | finished (passed : Bool) (lines : List String) (fatalErr : Option String)
  | crashed
deriving DecidableEq, Repr

/-- The walk loop of run over the visited file paths, threading the passed flag
(initially true) and the accumulated report lines. -/
def runLoop (step : String → FileEffect) (passed : Bool) (lines : List String) :
    List String → RunOutcome
  | [] => .finished passed lines none
  | p :: ps =>
    match step p with
    | .skipped => runLoop step passed lines ps
    | .reported ls failed => runLoop step (if failed then false else passed) (lines ++ ls) ps
    | .fatal m => .finished passed lines (some m)
    | .panicked => .crashed

/-- The passed-flag aggregation of run restricted to the verdicts it recorded:
passed starts true and is set to false on every Fail or Error verdict
(sigma-test.go lines 55, 84-86). -/
def runPassed (verdicts : List Verdict) : Bool :=
  verdicts.foldl (fun passed v => if verdictFailed v then false else passed) true

/-- Whether a verdict is one of the four spec-level verdict states. -/
def isSpecVerdict : Verdict → Bool
  | .pass => true
  | .skip => true
  | .errNoLogSources => true
  | .fail _ => true
  | _ => false

/-- The root loop of main (sigma-test.go lines 38-50): each root contributes the pair
of run's boolean result and optional fatal error; a fatal error exits with status 1
immediately, otherwise allPassed accumulates by conjunction and decides the status. -/
def mainLoop (allPassed : Bool) : List (Bool × Option String) → Nat
  | [] => if allPassed then 0 else 1
  | r :: rest =>
    match r.2 with
    | some _ => 1
    | none => mainLoop (allPassed && r.1) rest

/-- The process exit status of main: 1 when loading configurations failed
(sigma-test.go lines 32-36), otherwise the root loop's status. -/
def mainExitCode (configLoadErr : Option String) (runs : List (Bool × Option String)) : Nat :=
  match configLoadErr with
  | some _ => 1
  | none => mainLoop true runs

/-- Spec-side description of scoring one test case: the effective expectation defaults
to true, an evaluation error counts as a non-match, and a mismatch yields exactly one
failure message of the stated shape. Stated from the spec's words for comparison with
the code-side loop. -/
def specFailureMsg (matchFn : Option EventMap → Option Bool) (reprFn : Option EventMap → String)
    (tc : TestCase) : Option String :=
  let expected := tc.Match.getD true
  let actual := (matchFn tc.Event).getD false
  if expected && !actual then some (reprFn tc.Event ++ " should have matched")
  else if !expected && actual then some (reprFn tc.Event ++ " shouldn't have matched")
  else none

theorem testCaseStep_eq_spec (matchFn : Option EventMap → Option Bool)
    (reprFn : Option EventMap → String) (acc : Bool × List String) (tc : TestCase) :
    testCaseStep matchFn reprFn acc tc =
      match specFailureMsg matchFn reprFn tc with
      | none => acc
      | some msg => (false, acc.2 ++ [msg]) := by
  unfold testCaseStep specFailureMsg
  cases hb1 : tc.Match.getD true <;> cases hb2 : (matchFn tc.Event).getD false <;>
    simp [hb1, hb2]

theorem foldl_testCaseStep (matchFn : Option EventMap → Option Bool)
    (reprFn : Option EventMap → String) (tcs : List TestCase) :
    ∀ (b : Bool) (acc : List String),
      tcs.foldl (testCaseStep matchFn reprFn) (b, acc) =
        (b && (tcs.filterMap (specFailureMsg matchFn reprFn)).isEmpty,
         acc ++ tcs.filterMap (specFailureMsg matchFn reprFn)) := by
  induction tcs with
  | nil => intro b acc; simp
  | cons tc tcs ih =>
    intro b acc
    rw [List.foldl_cons, testCaseStep_eq_spec]
    cases h : specFailureMsg matchFn reprFn tc with
    | none => simp [List.filterMap_cons, h, ih]
    | some msg => simp [List.filterMap_cons, h, ih, List.append_assoc]

theorem runTestCases_spec (matchFn : Option EventMap → Option Bool)
    (reprFn : Option EventMap → String) (tcs : List TestCase) :
    runTestCases matchFn reprFn tcs =
      ((tcs.filterMap (specFailureMsg matchFn reprFn)).isEmpty,
       tcs.filterMap (specFailureMsg matchFn reprFn)) := by
  simpa [runTestCases] using foldl_testCaseStep matchFn reprFn tcs true []

theorem foldl_runPassed (vs : List Verdict) :
    ∀ b, vs.foldl (fun passed v => if verdictFailed v then false else passed) b
      = (b && vs.all (fun v => !verdictFailed v)) := by
  induction vs with
  | nil => intro b; simp
  | cons v vs ih =>
    intro b
    rw [List.foldl_cons, ih]
    cases h : verdictFailed v <;> simp [h]

theorem runPassed_eq_all (verdicts : List Verdict) :
    runPassed verdicts = verdicts.all (fun v => !verdictFailed v) := by
  rw [runPassed, foldl_runPassed]
  simp

theorem mainLoop_eq_zero_iff (runs : List (Bool × Option String)) :
    ∀ b, (mainLoop b runs = 0 ↔ b = true ∧ ∀ r ∈ runs, r.1 = true ∧ r.2 = none) := by
  induction runs with
  | nil => intro b; cases b <;> simp [mainLoop]
  | cons r rest ih =>
    intro b
    obtain ⟨p, e⟩ := r
    cases e with
    | some m => simp [mainLoop]
    | none =>
      rw [mainLoop]
      rw [ih (b && p)]
      constructor
      · rintro ⟨hbp, hrest⟩
        simp only [Bool.and_eq_true] at hbp
        obtain ⟨hb, hp⟩ := hbp
        refine ⟨hb, ?_⟩
        intro x hx
        rcases List.mem_cons.mp hx with rfl | hx
        · exact ⟨hp, rfl⟩
        · exact hrest x hx
      · rintro ⟨hb, hall⟩
        have hp : p = true := (hall (p, none) (List.mem_cons_self _ _)).1
        refine ⟨?_, fun x hx => hall x (List.mem_cons_of_mem _ hx)⟩
        rw [hb, hp]
        rfl

theorem walkList_nonrecursive (pfx : List String) (children : List FsEntry) :
    ∀ p ∈ walkList false pfx children,
      ∃ fname, p = pfx ++ [fname] ∧ FsEntry.file fname ∈ children := by
  induction children with
  | nil => simp [walkList]
  | cons e es ih =>
    intro p hp
    rw [walkList] at hp
    rcases List.mem_append.mp hp with h | h
    · cases e with
      | file n =>
        simp only [walkEntry, List.mem_singleton] at h
        exact ⟨n, h, by simp⟩
      | dir n cs => simp [walkEntry] at h
    · obtain ⟨fname, hee, hmem⟩ := ih p h
      exact ⟨fname, hee, List.mem_cons_of_mem _ hmem⟩

/-- A log-source identity used in concrete instances. -/
def exLogsource : Logsource := ⟨"windows", "process_creation", ""⟩

/-- A rule with that log-source identity. -/
def exRule : Rule := ⟨exLogsource⟩

/-- A log-source definition whose selector matches exRule. -/
def exMapping : LogsourceMapping := ⟨exLogsource, ⟨"", "", ""⟩⟩

/-- A configuration with a single matching log-source definition. -/
def exConfig : Config := ⟨["github.com/bradleyjkemp/sigma-go"], [exMapping]⟩

/-- A configuration with two matching log-source definitions. -/
def doubleMappingConfig : Config := ⟨["github.com/bradleyjkemp/sigma-go"], [exMapping, exMapping]⟩

/-- A concrete event. -/
def exEvent : EventMap := [("dst_port", "22")]

/-- A test case with no explicit expectation and that event. -/
def exTestCase : TestCase := ⟨none, some exEvent⟩

/-- The spurious empty record a trailing stream-termination marker decodes to. -/
def markerTestCase : TestCase := ⟨none, none⟩

/-- An evaluator that matches every event. -/
def exMatchTrue : Option EventMap → Option Bool := fun _ => some true

/-- An event formatter in Go's fmt.Sprintf style. -/
def exRepr : Option EventMap → String := fun _ => "map[dst_port:22]"

/-- A file system whose every file decodes to one test case plus the trailing marker. -/
def exFs : String → FileOutcome := fun _ => .decoded [exTestCase, markerTestCase] none

/-- C1: the claim says a rule with test cases yields Error only when the loaded
configuration set was non-empty and none of it is relevant, and that an empty loaded
configuration sequence evaluates the rule unconfigured without Error. The code checks
only len(relevantConfigs), so with the empty-pattern configuration load (which yields
the empty list) a rule with one test case still gets the no-relevant-logsources Error,
contradicting the claim and the repository README. -/
theorem c1_empty_configs_yield_error :
    loadConfigs "" ["cfg.yaml"] (fun f => ConfigFileOutcome.parseError f) = .ok []
    ∧ testFile exMatchTrue exRepr exFs [] exRule "rule.yaml" = .errNoLogSources := by
  exact ⟨rfl, rfl⟩

/-- C2 counterexample: a configuration holding two log-source definitions that both
match the rule is appended once per matching definition, so it appears twice in the
relevant-configuration list, not once as the claim states. -/
theorem c2_duplicate_config_counterexample :
    relevantConfigs exRule [doubleMappingConfig] = [doubleMappingConfig, doubleMappingConfig]
    ∧ relevantConfigs exRule [doubleMappingConfig] ≠ [doubleMappingConfig] := by
  exact ⟨rfl, by decide⟩

/-- C2 amended: a Config is included exactly when it has at least one matching
log-source definition, and it is appended once per matching definition in input
order, so a Config with k matching definitions appears k times. -/
theorem c2_relevant_configs_amended (r : Rule) (configs : List Config) :
    (∀ c, c ∈ relevantConfigs r configs ↔
        c ∈ configs ∧ ∃ v ∈ c.logsources, mappingMatches r v = true)
    ∧ relevantConfigs r configs
        = configs.flatMap (fun c => (c.logsources.filter (mappingMatches r)).map (fun _ => c)) := by
  refine ⟨?_, relevantConfigs_eq_flatMap r configs⟩
  intro c
  rw [relevantConfigs_eq_flatMap]
  constructor
  · intro h
    rcases List.mem_flatMap.mp h with ⟨a, ha, hc⟩
    rcases List.mem_map.mp hc with ⟨v, hv, heq⟩
    rcases List.mem_filter.mp hv with ⟨hvmem, hvmatch⟩
    subst heq
    exact ⟨ha, v, hvmem, hvmatch⟩
  · rintro ⟨hc, v, hv, hm⟩
    exact List.mem_flatMap.mpr
      ⟨c, hc, List.mem_map.mpr ⟨v, List.mem_filter.mpr ⟨hv, hm⟩, rfl⟩⟩

/-- C3: a stream of records each carrying an event followed by exactly one trailing
record with no event loads as exactly the leading records; and whenever the last
decoded record has an event, nothing is discarded, so a no-event record at any
earlier position is kept as-is. -/
theorem c3_trailing_marker_discarded (tcs : List TestCase) (marker : TestCase)
    (records : List TestCase) (t : TestCase)
    (hall : ∀ tc ∈ tcs, tc.Event ≠ none) (hmark : marker.Event = none)
    (hlast : records.getLast? = some t) (ht : t.Event ≠ none) :
    getTestCases (.decoded (tcs ++ [marker]) none) = .ok tcs
    ∧ getTestCases (.decoded records none) = .ok records := by
  constructor
  · have hconcat : (tcs ++ [marker]).getLast? = some marker := List.getLast?_concat _
    simp [getTestCases, hconcat, hmark, List.dropLast_concat]
  · have hne : (t.Event == none) = false := by
      simp [ht]
    simp [getTestCases, hlast, hne]

/-- C3 witness at a concrete stream: one real test case plus the trailing marker
loads as the single test case, and a stream whose earlier record lacks an event but
whose last record has one is returned unchanged. -/
theorem c3_witness :
    ((∀ tc ∈ [exTestCase], tc.Event ≠ none) ∧ markerTestCase.Event = none
      ∧ [markerTestCase, exTestCase].getLast? = some exTestCase ∧ exTestCase.Event ≠ none)
    ∧ getTestCases (.decoded ([exTestCase] ++ [markerTestCase]) none) = .ok [exTestCase]
    ∧ getTestCases (.decoded [markerTestCase, exTestCase] none)
        = .ok [markerTestCase, exTestCase] := by
  refine ⟨⟨by decide, by decide, by decide, by decide⟩, ?_⟩
  exact c3_trailing_marker_discarded [exTestCase] markerTestCase
    [markerTestCase, exTestCase] exTestCase (by decide) (by decide) (by decide) (by decide)

/-- C4: the claim says a companion file that decodes to zero records is returned as
an empty sequence with the trailing-record discard never touching an element. The
code indexes testCases[len(testCases)-1] unconditionally, which on the empty slice is
a Go runtime panic, modelled here as the panicked outcome. -/
theorem c4_empty_stream_panics :
    getTestCases (.decoded [] none) = .panicked := rfl

/-- C5: with a non-empty test-case list and a non-empty relevant-configuration list,
the verdict is Pass exactly when no test case's effective expectation (defaulting to
true) disagrees with the evaluator's boolean, and otherwise Fail carrying one message
of the stated shape per mismatch, in test-case order. -/
theorem c5_verdict_classification (matchFn : Option EventMap → Option Bool)
    (reprFn : Option EventMap → String) (configs : List Config) (r : Rule)
    (tcs : List TestCase) (h1 : tcs ≠ []) (h2 : relevantConfigs r configs ≠ []) :
    testFileVerdict matchFn reprFn configs r (.ok tcs)
      = if (tcs.filterMap (specFailureMsg matchFn reprFn)).isEmpty then .pass
        else .fail (tcs.filterMap (specFailureMsg matchFn reprFn)) := by
  have hlen : (tcs.length == 0) = false := by
    simp [List.length_eq_zero, h1]
  have hrcs : ((relevantConfigs r configs).length == 0) = false := by
    simp [List.length_eq_zero, h2]
  simp only [testFileVerdict, hlen, hrcs, Bool.false_eq_true, if_false, runTestCases_spec]

/-- C5 witness at a concrete input: a single default-expectation test case under an
evaluator that matches yields Pass. -/
theorem c5_witness :
    ([exTestCase] ≠ ([] : List TestCase) ∧ relevantConfigs exRule [exConfig] ≠ [])
    ∧ testFileVerdict exMatchTrue exRepr [exConfig] exRule (.ok [exTestCase])
        = if ([exTestCase].filterMap (specFailureMsg exMatchTrue exRepr)).isEmpty then .pass
          else .fail ([exTestCase].filterMap (specFailureMsg exMatchTrue exRepr)) := by
  exact ⟨⟨by decide, by decide⟩,
    c5_verdict_classification exMatchTrue exRepr [exConfig] exRule [exTestCase]
      (by decide) (by decide)⟩

/-- C6: when the evaluator returns an error on a test case's event, the loop body is
total (no crash) and scores the case as a non-match: with effective expectation true
it appends the should-have-matched failure, with effective expectation false it
leaves the accumulator unchanged. -/
theorem c6_eval_error_scored_as_nonmatch (matchFn : Option EventMap → Option Bool)
    (reprFn : Option EventMap → String) (tc : TestCase) (acc : Bool × List String)
    (herr : matchFn tc.Event = none) :
    testCaseStep matchFn reprFn acc tc
      = if tc.Match.getD true
        then (false, acc.2 ++ [reprFn tc.Event ++ " should have matched"])
        else acc := by
  unfold testCaseStep
  rw [herr]
  cases h : tc.Match.getD true <;> simp [h]

/-- C6 witness: an always-erroring evaluator on a default-expectation test case
produces exactly the should-have-matched failure. -/
theorem c6_witness :
    ((fun _ : Option EventMap => (none : Option Bool)) exTestCase.Event = none)
    ∧ testCaseStep (fun _ => none) exRepr (true, []) exTestCase
        = if exTestCase.Match.getD true
          then (false, ([] : List String) ++ [exRepr exTestCase.Event ++ " should have matched"])
          else (true, []) := by
  exact ⟨rfl, c6_eval_error_scored_as_nonmatch (fun _ => none) exRepr exTestCase (true, []) rfl⟩

/-- C7: when the companion test file derived by inserting _test before the extension
does not exist, loading yields the empty list without error; and an empty test-case
list yields the Skip verdict for every configuration list. -/
theorem c7_missing_test_file_skips (matchFn : Option EventMap → Option Bool)
    (reprFn : Option EventMap → String) (fs : String → FileOutcome)
    (configs : List Config) (r : Rule) (path : String)
    (hmiss : fs (testFilename path) = .missing) :
    getTestCases (fs (testFilename path)) = .ok []
    ∧ testFile matchFn reprFn fs configs r path = .skip
    ∧ ∀ configs2 : List Config, testFileVerdict matchFn reprFn configs2 r (.ok []) = .skip := by
  refine ⟨by rw [hmiss]; rfl, ?_, fun configs2 => rfl⟩
  unfold testFile
  rw [hmiss]
  rfl

/-- C7 witness: on a file system with no files, the rule file rule.yaml derives the
companion name rule_test.yaml, loads zero test cases, and is skipped even though a
relevant configuration is loaded. -/
theorem c7_witness :
    ((fun _ : String => FileOutcome.missing) (testFilename "rule.yaml") = .missing)
    ∧ getTestCases ((fun _ : String => FileOutcome.missing) (testFilename "rule.yaml")) = .ok []
    ∧ testFile exMatchTrue exRepr (fun _ => .missing) [exConfig] exRule "rule.yaml" = .skip
    ∧ ∀ configs2 : List Config,
        testFileVerdict exMatchTrue exRepr configs2 exRule (.ok []) = .skip := by
  exact ⟨rfl, c7_missing_test_file_skips exMatchTrue exRepr (fun _ => .missing) [exConfig]
    exRule "rule.yaml" rfl⟩

/-- C8: over verdict sequences drawn from the four spec verdict states, the run's
aggregate boolean is true exactly when every verdict is Pass or Skip; and the process
exit status is 0 exactly when configuration loading succeeded, no root's run ended in
a fatal error, and every root's aggregate is true. -/
theorem c8_aggregate_and_exit (verdicts : List Verdict) (configLoadErr : Option String)
    (runs : List (Bool × Option String))
    (h : ∀ v ∈ verdicts, isSpecVerdict v = true) :
    (runPassed verdicts = true ↔ ∀ v ∈ verdicts, v = .pass ∨ v = .skip)
    ∧ (mainExitCode configLoadErr runs = 0
        ↔ configLoadErr = none ∧ ∀ r ∈ runs, r.1 = true ∧ r.2 = none) := by
  constructor
  · rw [runPassed_eq_all, List.all_eq_true]
    constructor
    · intro hall v hv
      have h1 := hall v hv
      have h2 := h v hv
      cases v <;> simp_all [verdictFailed, isSpecVerdict]
    · intro hall v hv
      rcases hall v hv with rfl | rfl <;> simp [verdictFailed]
  · cases configLoadErr with
    | some m => simp [mainExitCode]
    | none => simpa [mainExitCode] using mainLoop_eq_zero_iff runs true

/-- C8 witness: a Pass and a Skip verdict aggregate to true, and one clean passing
root with a clean configuration load exits 0. -/
theorem c8_witness :
    (∀ v ∈ [Verdict.pass, Verdict.skip], isSpecVerdict v = true)
    ∧ (runPassed [Verdict.pass, Verdict.skip] = true
        ↔ ∀ v ∈ [Verdict.pass, Verdict.skip], v = .pass ∨ v = .skip)
    ∧ (mainExitCode none [(true, none)] = 0
        ↔ (none : Option String) = none
          ∧ ∀ r ∈ [((true : Bool), (none : Option String))], r.1 = true ∧ r.2 = none) := by
  exact ⟨by decide, c8_aggregate_and_exit [Verdict.pass, Verdict.skip] none [(true, none)]
    (by decide)⟩

/-- C9: in a non-recursive run over a root directory, every path in the walked file
sequence is a file directly in the root: no file of any subdirectory appears. -/
theorem c9_nonrecursive_stays_at_root (rootName : String) (children : List FsEntry)
    (p : List String) (hp : p ∈ walkEntry false true [] (.dir rootName children)) :
    ∃ fname, p = [rootName, fname] ∧ FsEntry.file fname ∈ children := by
  have hp2 : p ∈ walkList false [rootName] children := by
    simpa [walkEntry] using hp
  obtain ⟨fname, h1, h2⟩ := walkList_nonrecursive [rootName] children p hp2
  exact ⟨fname, h1, h2⟩

/-- C9 witness: in a root with one file and one subdirectory holding another file,
the walked path is the root's own file. -/
theorem c9_witness :
    (["root", "a.yml"] ∈ walkEntry false true []
        (.dir "root" [.file "a.yml", .dir "sub" [.file "b.yml"]]))
    ∧ ∃ fname, ["root", "a.yml"] = ["root", fname]
        ∧ FsEntry.file fname ∈ [FsEntry.file "a.yml", FsEntry.dir "sub" [FsEntry.file "b.yml"]] := by
  exact ⟨by decide, c9_nonrecursive_stays_at_root "root"
    [.file "a.yml", .dir "sub" [.file "b.yml"]] ["root", "a.yml"] (by decide)⟩

/-- C10: a walked file with a recognized extension whose contents are not inferred to
be a rule file is silently skipped: the callback yields the skipped effect, and the
run loop over a path list containing it equals the loop without it, so it records no
report line, raises no error, and leaves the passed flag unchanged. -/
theorem c10_non_rule_yaml_silently_skipped (matchFn : Option EventMap → Option Bool)
    (reprFn : Option EventMap → String) (fs : String → FileOutcome)
    (contentOf : String → RuleFileContent) (configs : List Config) (path : String)
    (hext : goExt path = ".yaml" ∨ goExt path = ".yml")
    (hnot : contentOf path = .notRuleFile) :
    processFile matchFn reprFn fs contentOf configs path = .skipped
    ∧ ∀ (ps : List String) (passed : Bool) (lines : List String),
        runLoop (processFile matchFn reprFn fs contentOf configs) passed lines (path :: ps)
          = runLoop (processFile matchFn reprFn fs contentOf configs) passed lines ps := by
  have hcond : (goExt path != ".yaml" && goExt path != ".yml") = false := by
    rcases hext with h | h <;> simp [h]
  have hskip : processFile matchFn reprFn fs contentOf configs path = .skipped := by
    unfold processFile
    rw [hcond, hnot]
    rfl
  refine ⟨hskip, fun ps passed lines => ?_⟩
  rw [runLoop, hskip]

/-- C10 witness: a yaml file not inferred to be a rule file is skipped and the run
loop over it equals the loop over the remaining paths. -/
theorem c10_witness :
    (goExt "x.yaml" = ".yaml" ∨ goExt "x.yaml" = ".yml")
    ∧ processFile exMatchTrue exRepr (fun _ => .missing) (fun _ => .notRuleFile) [] "x.yaml"
        = .skipped
    ∧ runLoop (processFile exMatchTrue exRepr (fun _ => .missing) (fun _ => .notRuleFile) [])
          true [] ["x.yaml", "y.yaml"]
        = runLoop (processFile exMatchTrue exRepr (fun _ => .missing) (fun _ => .notRuleFile) [])
          true [] ["y.yaml"] := by
  have h := c10_non_rule_yaml_silently_skipped exMatchTrue exRepr (fun _ => .missing)
    (fun _ => .notRuleFile) [] "x.yaml" (Or.inl (by decide)) rfl
  exact ⟨Or.inl (by decide), h.1, h.2 ["y.yaml"] true []⟩

end SigmaTest
